import Mathlib

/-!
Verification of the schedule-resolution engine and reconciliation driver of
`databricks_apps_scheduler/cli.py`, as a shallow embedding in Lean 4.

Strings are modelled by Lean `String` (a list of characters); Python machine
integers are unbounded, matching Lean `Int`/`Nat`.  Fallible Python functions
(those that raise `ValueError`) are modelled with `Except`, the error payloads
as inductive types carrying exactly the data interpolated into the Python
message.  The remote Databricks workspace is modelled as an explicit
`Directory` value: either one of the three connection-level failures the code
catches (SDK import, client construction, listing) or a list of apps; the
outcome of each start/stop call is modelled by a `String → Bool` failure
oracle.  Wall-clock time (`datetime.now`) and the IANA timezone database are
external; an explicit `--now` override together with a fixed UTC-offset
timezone is modelled exactly.
-/

instance {ε α : Type} [DecidableEq ε] [DecidableEq α] : DecidableEq (Except ε α)
  | .error x, .error y =>
    if h : x = y then .isTrue (congrArg Except.error h)
    else .isFalse (fun hc => h (Except.error.inj hc))
  | .error _, .ok _ => .isFalse (fun hc => Except.noConfusion hc)
  | .ok _, .error _ => .isFalse (fun hc => Except.noConfusion hc)
  | .ok x, .ok y =>
    if h : x = y then .isTrue (congrArg Except.ok h)
    else .isFalse (fun hc => h (Except.ok.inj hc))

/-- Python whitespace characters stripped by `str.strip()` (ASCII subset). -/
def isPySpace (c : Char) : Bool :=
  c == ' ' || c == '\t' || c == '\n' || c == '\r' || c == '\x0b' || c == '\x0c'

/-- Model of Python `str.strip()` on the underlying character list. -/
def stripChars (cs : List Char) : List Char :=
  ((cs.dropWhile isPySpace).reverse.dropWhile isPySpace).reverse

/-- Model of Python `str.strip()`. -/
def pyStrip (s : String) : String :=
  String.mk (stripChars s.data)

/-- Model of Python `str.lower()` (ASCII letters, as used by the CLI). -/
def pyLower (s : String) : String :=
  String.mk (s.data.map Char.toLower)

/-- Model of Python `str.upper()` (ASCII letters, as used by the CLI). -/
def pyUpper (s : String) : String :=
  String.mk (s.data.map Char.toUpper)

/-- Model of Python `str.split(",")`: accumulator-style split at every comma. -/
def splitCommaAux : List Char → List Char → List (List Char)
  | [], acc => [acc.reverse]
  | c :: rest, acc =>
    if c = ',' then acc.reverse :: splitCommaAux rest []
    else splitCommaAux rest (c :: acc)

/-- Model of Python `raw.split(",")` on character lists. -/
def splitComma (cs : List Char) : List (List Char) :=
  splitCommaAux cs []

/-- Model of `_csv_tokens` (cli.py lines 30-33): split on commas, strip each
token, and drop the empty ones. -/
def csv_tokens (raw : String) : List String :=
  (((splitComma raw.data).map stripChars).filter (fun cs => !cs.isEmpty)).map String.mk

/-- First-seen-order deduplication with an explicit `seen` accumulator,
mirroring the `seen` set and `names` list of `parse_app_names`. -/
def dedup_first : List String → List String → List String
  | _, [] => []
  | seen, n :: rest =>
    if n ∈ seen then dedup_first seen rest
    else n :: dedup_first (n :: seen) rest

/-- Model of `parse_app_names` (cli.py lines 36-44). -/
def parse_app_names (raw : String) : List String :=
  dedup_first [] (csv_tokens raw)

/-- Comma-join of a list of names (the inverse direction used to state
idempotence of `parse_app_names`), at the character level. -/
def joinPieces : List (List Char) → List Char
  | [] => []
  | [p] => p
  | p :: ps => p ++ ',' :: joinPieces ps

/-- Comma-join of a list of names. -/
def joinComma (names : List String) : String :=
  String.mk (joinPieces (names.map String.data))

/-- ASCII decimal digit test, as accepted by Python `int()`. -/
def isPyDigit (c : Char) : Bool :=
  '0' ≤ c && c ≤ '9'

/-- Numeric value of an ASCII digit. -/
def digitVal (c : Char) : Nat :=
  c.toNat - '0'.toNat

/-- Digit-run parser for Python `int()`: digits with optional single
underscores between digits (PEP 515). -/
def pyDigitsAux : List Char → Nat → Option Nat
  | [], acc => some acc
  | c :: rest, acc =>
    if isPyDigit c then pyDigitsAux rest (acc * 10 + digitVal c)
    else if c = '_' then
      match rest with
      | [] => none
      | d :: rest2 =>
        if isPyDigit d then pyDigitsAux rest2 (acc * 10 + digitVal d) else none
    else none

/-- Nonempty digit run (first character must be a digit). -/
def pyDigits : List Char → Option Nat
  | [] => none
  | c :: rest => if isPyDigit c then pyDigitsAux rest (digitVal c) else none

/-- Model of Python `int(token)` on an already-stripped token: optional sign
followed by a digit run.  `none` models the `ValueError` branch. -/
def pyParseInt (s : String) : Option Int :=
  match s.data with
  | '+' :: rest => (pyDigits rest).map (fun n => (n : Int))
  | '-' :: rest => (pyDigits rest).map (fun n => -(n : Int))
  | cs => (pyDigits cs).map (fun n => (n : Int))

/-- Error payloads of `parse_active_days`: the `INVALID_WEEKDAY_ERROR`
message formatted with the offending token, and the empty-set message. -/
inductive DaysError where
  | invalidWeekday (token : String)
  | emptyDays
deriving DecidableEq

/-- The `for token in _csv_tokens(raw)` loop body of `parse_active_days`
(cli.py lines 52-59), accumulating into `active_days`. -/
def daysLoop : List String → Finset Int → Except DaysError (Finset Int)
  | [], acc => .ok acc
  | t :: rest, acc =>
    match pyParseInt t with
    | none => .error (.invalidWeekday t)
    | some d =>
      if d < 0 ∨ 6 < d then .error (.invalidWeekday t)
      else daysLoop rest (insert d acc)

/-- The full weekday set `set(range(7))`. -/
def allDays : Finset Int := {0, 1, 2, 3, 4, 5, 6}

/-- Model of `parse_active_days` (cli.py lines 47-62). -/
def parse_active_days (raw : String) : Except DaysError (Finset Int) :=
  if pyLower (pyStrip raw) = "" ∨ pyLower (pyStrip raw) = "all" then .ok allDays
  else
    match daysLoop (csv_tokens raw) ∅ with
    | .error e => .error e
    | .ok s => if s = ∅ then .error .emptyDays else .ok s

/-- Range test used in the claims: a token parses to an in-range weekday. -/
def tokenDay (t : String) : Option Int :=
  match pyParseInt t with
  | none => none
  | some d => if 0 ≤ d ∧ d ≤ 6 then some d else none

/-- A Python `datetime` value: Gregorian calendar fields plus an optional
fixed UTC offset in minutes standing for the attached `tzinfo` (microseconds,
which no claim mentions, are not tracked).  A `ZoneInfo` object is likewise
modelled by the UTC offset (in minutes) it applies at the relevant instant. -/
structure PyDatetime where
  year : Int
  month : Int
  day : Int
  hour : Int
  minute : Int
  second : Int
  tzinfo : Option Int
deriving DecidableEq

/-- Days since 1970-01-01 of a proleptic Gregorian date (Hinnant's
`days_from_civil`), backing `datetime.toordinal` arithmetic. -/
def daysFromCivil (y m d : Int) : Int :=
  let yAdj := if m ≤ 2 then y - 1 else y
  let era := Int.fdiv yAdj 400
  let yoe := yAdj - era * 400
  let mp := Int.emod (m + 9) 12
  let doy := Int.fdiv (153 * mp + 2) 5 + d - 1
  let doe := yoe * 365 + Int.fdiv yoe 4 - Int.fdiv yoe 100 + doy
  era * 146097 + doe - 719468

/-- Inverse of `daysFromCivil` (Hinnant's `civil_from_days`). -/
def civilFromDays (z0 : Int) : Int × Int × Int :=
  let z := z0 + 719468
  let era := Int.fdiv z 146097
  let doe := z - era * 146097
  let yoe :=
    Int.fdiv (doe - Int.fdiv doe 1460 + Int.fdiv doe 36524 - Int.fdiv doe 146096) 365
  let y := yoe + era * 400
  let doy := doe - (365 * yoe + Int.fdiv yoe 4 - Int.fdiv yoe 100)
  let mp := Int.fdiv (5 * doy + 2) 153
  let d := doy - Int.fdiv (153 * mp + 2) 5 + 1
  let m := mp + (if mp < 10 then 3 else -9)
  (y + (if m ≤ 2 then 1 else 0), m, d)

/-- Python `datetime.weekday()`: Monday is `0`, Sunday is `6`. -/
def pyWeekday (t : PyDatetime) : Int :=
  Int.emod (daysFromCivil t.year t.month t.day + 3) 7

/-- Minutes since the epoch of a datetime's clock fields (offset ignored). -/
def toTotalMinutes (t : PyDatetime) : Int :=
  1440 * daysFromCivil t.year t.month t.day + 60 * t.hour + t.minute

/-- Model of `candidate.astimezone(tz)` for a candidate carrying the fixed
UTC offset `off` (minutes) and a target timezone at fixed offset `tz`
(minutes): shift the clock fields by `tz - off` and attach `tz`. -/
def astimezoneFixed (t : PyDatetime) (off tz : Int) : PyDatetime :=
  let tm := toTotalMinutes t - off + tz
  let days := Int.fdiv tm 1440
  let rem := Int.emod tm 1440
  let ymd := civilFromDays days
  { year := ymd.1, month := ymd.2.1, day := ymd.2.2,
    hour := Int.fdiv rem 60, minute := Int.emod rem 60,
    second := t.second, tzinfo := some tz }

/-- Leap-year test of the Gregorian calendar. -/
def isLeap (y : Int) : Bool :=
  (Int.emod y 4 = 0 && Int.emod y 100 ≠ 0) || Int.emod y 400 = 0

/-- Number of days in a month. -/
def daysInMonth (y m : Int) : Int :=
  if m = 2 then (if isLeap y then 29 else 28)
  else if m = 4 ∨ m = 6 ∨ m = 9 ∨ m = 11 then 30
  else 31

/-- Reads exactly two ASCII digits. -/
def read2 : List Char → Option (Int × List Char)
  | a :: b :: rest =>
    if isPyDigit a && isPyDigit b then
      some ((10 * digitVal a + digitVal b : Nat), rest)
    else none
  | _ => none

/-- Reads exactly four ASCII digits. -/
def read4 (cs : List Char) : Option (Int × List Char) :=
  match read2 cs with
  | none => none
  | some (hi, rest) =>
    match read2 rest with
    | none => none
    | some (lo, rest2) => some (100 * hi + lo, rest2)

/-- Consumes one expected character. -/
def expectChar (c : Char) : List Char → Option (List Char)
  | x :: rest => if x = c then some rest else none
  | [] => none

/-- Consumes between one and six fractional-second digits. -/
def readFracDigits : Nat → List Char → Option (List Char)
  | _, [] => some []
  | 0, c :: rest => if isPyDigit c then none else some (c :: rest)
  | n + 1, c :: rest =>
    if isPyDigit c then readFracDigits n rest else some (c :: rest)

/-- Reads a `±HH:MM` UTC offset, returning signed minutes. -/
def readOffset : List Char → Option (Int × List Char)
  | c :: rest =>
    if c = '+' ∨ c = '-' then
      match read2 rest with
      | none => none
      | some (h, rest2) =>
        match expectChar ':' rest2 with
        | none => none
        | some rest3 =>
          match read2 rest3 with
          | none => none
          | some (m, rest4) =>
            if h ≤ 23 ∧ m ≤ 59 then
              some ((if c = '-' then -(60 * h + m) else 60 * h + m), rest4)
            else none
    else none
  | [] => none

/-- Reads `[:MM[:SS[.ffffff]]]` after the hour, then an optional offset;
requires the input to be exhausted. -/
def readTimeTail (mi se : Int) (cs : List Char) : Option (Int × Int × Option Int) :=
  match cs with
  | [] => some (mi, se, none)
  | _ :: _ =>
    match readOffset cs with
    | some (off, []) => some (mi, se, some off)
    | _ => none

/-- Reads `[.ffffff]` then the offset tail. -/
def readSecondsFrac (mi se : Int) (cs : List Char) : Option (Int × Int × Option Int) :=
  match cs with
  | '.' :: rest =>
    match rest with
    | [] => none
    | c :: _ =>
      if isPyDigit c then
        match readFracDigits 6 rest with
        | none => none
        | some rest2 => readTimeTail mi se rest2
      else none
  | _ => readTimeTail mi se cs

/-- Reads the time-of-day part `HH[:MM[:SS[.ffffff]]]` plus offset. -/
def readTime (cs : List Char) : Option (Int × Int × Int × Option Int) :=
  match read2 cs with
  | none => none
  | some (h, rest) =>
    if h ≤ 23 then
      match rest with
      | ':' :: rest2 =>
        match read2 rest2 with
        | none => none
        | some (mi, rest3) =>
          if mi ≤ 59 then
            match rest3 with
            | ':' :: rest4 =>
              match read2 rest4 with
              | none => none
              | some (se, rest5) =>
                if se ≤ 59 then
                  match readSecondsFrac mi se rest5 with
                  | none => none
                  | some (mi2, se2, off) => some (h, mi2, se2, off)
                else none
            | _ =>
              match readTimeTail mi 0 rest3 with
              | none => none
              | some (mi2, se2, off) => some (h, mi2, se2, off)
          else none
      | _ =>
        match readTimeTail 0 0 rest with
        | none => none
        | some (mi2, se2, off) => some (h, mi2, se2, off)
    else none

/-- Model of `datetime.fromisoformat` on the extended ISO-8601 forms the CLI
documents (`YYYY-MM-DD[(T| )HH[:MM[:SS[.ffffff]]][±HH:MM]]`); `none` models
the `ValueError` branch. -/
def fromIso (s : String) : Option PyDatetime :=
  match read4 s.data with
  | none => none
  | some (y, cs1) =>
    match expectChar '-' cs1 with
    | none => none
    | some cs2 =>
      match read2 cs2 with
      | none => none
      | some (mo, cs3) =>
        match expectChar '-' cs3 with
        | none => none
        | some cs4 =>
          match read2 cs4 with
          | none => none
          | some (d, cs5) =>
            if 1 ≤ y ∧ (1 ≤ mo ∧ mo ≤ 12) ∧ 1 ≤ d ∧ d ≤ daysInMonth y mo then
              match cs5 with
              | [] => some ⟨y, mo, d, 0, 0, 0, none⟩
              | sep :: cs6 =>
                if sep = 'T' ∨ sep = ' ' then
                  match readTime cs6 with
                  | none => none
                  | some (h, mi, se, off) => some ⟨y, mo, d, h, mi, se, off⟩
                else none
            else none

/-- Error payload of `resolve_now`: the message interpolates the raw
`--now` value. -/
inductive NowError where
  | invalidNow (raw : String)
deriving DecidableEq

/-- The trailing-`Z` rewrite of `resolve_now` (cli.py lines 88-89): a trailing
`Z` becomes `+00:00`. -/
def z_normalize (s : String) : String :=
  if s.data.getLast? = some 'Z' then String.mk s.data.dropLast ++ "+00:00" else s

/-- Model of `resolve_now` (cli.py lines 83-100) on the override path
(`now_raw is not None`; the `datetime.now(tz)` path reads the wall clock and
is outside the model).  The target `ZoneInfo` is modelled by the fixed UTC
offset `tz` in minutes it applies. -/
def resolve_now (now_raw : String) (tz : Int) : Except NowError PyDatetime :=
  let normalized := z_normalize (pyStrip now_raw)
  match fromIso normalized with
  | none => .error (.invalidNow now_raw)
  | some candidate =>
    match candidate.tzinfo with
    | none => .ok { candidate with tzinfo := some tz }
    | some off => .ok (astimezoneFixed candidate off tz)

/-- Model of `resolve_action` (cli.py lines 65-80). -/
def resolve_action (now_local : PyDatetime) (start_hour end_hour : Int)
    (active_days : Finset Int) : String :=
  if pyWeekday now_local ∉ active_days then "stop"
  else if start_hour = end_hour then "start"
  else if start_hour < end_hour then
    if start_hour ≤ now_local.hour ∧ now_local.hour < end_hour then "start" else "stop"
  else
    if now_local.hour ≥ start_hour ∨ now_local.hour < end_hour then "start" else "stop"

/-- States regarded as terminal for a `start` decision (cli.py line 15). -/
def RUNNING_STATES : List String := ["ACTIVE", "STARTING"]

/-- States regarded as terminal for a `stop` decision (cli.py line 16). -/
def STOPPED_STATES : List String := ["STOPPED", "STOPPING"]

/-- A remote app as the driver observes it: its name and the state-name
string reachable through `app.compute_status.state` (`none` when any link of
that attribute chain is absent, collapsing the `getattr` fallbacks). -/
structure App where
  name : String
  state : Option String
deriving DecidableEq

/-- Model of `_state_name` (cli.py lines 103-112): the uppercased state name,
or `"UNKNOWN"` when no state is attached. -/
def state_name (a : App) : String :=
  match a.state with
  | none => "UNKNOWN"
  | some s => pyUpper s

/-- The `by_name` dict of `_select_target_apps` (last-seen wins on duplicate
names, matching Python dict-comprehension overwrite order). -/
def byName (apps : List App) (n : String) : Option App :=
  apps.reverse.find? (fun a => a.name == n)

/-- Model of `_select_target_apps` (cli.py lines 115-129): resolve each
requested name in order into found targets and missing names. -/
def select_target_apps (apps : List App) : List String → List App × List String
  | [] => ([], [])
  | n :: rest =>
    let tm := select_target_apps apps rest
    match byName apps n with
    | some a => (a :: tm.1, tm.2)
    | none => (tm.1, n :: tm.2)

/-- Tally of one pass over targets: `updated`, `failures`, and the names for
which a transition call was issued, in order. -/
structure LoopAcc where
  updated : Nat
  failures : Nat
  calls : List String
deriving DecidableEq

/-- Pointwise combination of tallies. -/
def accAdd (x y : LoopAcc) : LoopAcc :=
  ⟨x.updated + y.updated, x.failures + y.failures, x.calls ++ y.calls⟩

/-- Model of one iteration of the per-app loop (cli.py lines 440-455):
skip when already terminal; otherwise call `action_fn` unless `--dry-run`,
catching a failed call as one failure instead of an update. -/
def process_app (terminal : List String) (dry : Bool) (callFails : String → Bool)
    (a : App) : LoopAcc :=
  if state_name a ∈ terminal then ⟨0, 0, []⟩
  else if dry then ⟨1, 0, []⟩
  else if callFails a.name then ⟨0, 1, [a.name]⟩
  else ⟨1, 0, [a.name]⟩

/-- Model of the whole per-app loop. -/
def run_loop (terminal : List String) (dry : Bool) (callFails : String → Bool) :
    List App → LoopAcc
  | [] => ⟨0, 0, []⟩
  | a :: rest =>
    accAdd (process_app terminal dry callFails a) (run_loop terminal dry callFails rest)

/-- The action mode after argument handling: `auto` carrying the parsed
active-day set, or a forced action string. -/
inductive Mode where
  | auto (activeDays : Finset Int)
  | forced (action : String)
deriving DecidableEq

/-- Arguments of `main` after the `parser.error` prologue: parsed app names,
validated hours, and the resolved mode. -/
structure ValidArgs where
  app_names : List String
  start_hour : Int
  end_hour : Int
  mode : Mode
  dry_run : Bool
  ignore_missing_apps : Bool
  output : String
  timezone : String
deriving DecidableEq

/-- The action string selected in cli.py lines 314-326. -/
def resolved_action (v : ValidArgs) (now_local : PyDatetime) : String :=
  match v.mode with
  | .auto days => resolve_action now_local v.start_hour v.end_hour days
  | .forced a => a

/-- The `args.action` string echoed in the summary. -/
def mode_string : Mode → String
  | .auto _ => "auto"
  | .forced a => a

/-- The `active_days` value carried through `main` (`None` unless auto). -/
def mode_days : Mode → Option (Finset Int)
  | .auto d => some d
  | .forced _ => none

/-- Model of the summary dict built by `_summary_payload`
(cli.py lines 216-247). -/
structure Summary where
  action : String
  action_mode : String
  apps_changed : Nat
  apps_evaluated : Nat
  apps_requested : List String
  dry_run : Bool
  end_hour : Int
  exit_code : Int
  failures : Nat
  missing_apps : List String
  output : String
  start_hour : Int
  time_local : PyDatetime
  timezone : String
  active_days : Option (List Int)
deriving DecidableEq

/-- Model of `_summary_payload` (cli.py lines 216-247). -/
def summary_payload (action : String) (v : ValidArgs) (now_local : PyDatetime)
    (apps_changed apps_evaluated : Nat) (exit_code : Int) (failures : Nat)
    (missing_apps : List String) (active_days : Option (Finset Int)) : Summary :=
  { action := action
    action_mode := mode_string v.mode
    apps_changed := apps_changed
    apps_evaluated := apps_evaluated
    apps_requested := v.app_names
    dry_run := v.dry_run
    end_hour := v.end_hour
    exit_code := exit_code
    failures := failures
    missing_apps := missing_apps
    output := v.output
    start_hour := v.start_hour
    time_local := now_local
    timezone := v.timezone
    active_days := active_days.map (fun s => s.sort (· ≤ ·)) }

/-- Model of `_emit_and_return` (cli.py lines 255-283): build the payload and
hand back the exit code (emission itself only prints the payload when the
output mode is `json`, so it carries no extra state). -/
def emit_and_return (action : String) (v : ValidArgs) (now_local : PyDatetime)
    (apps_changed apps_evaluated : Nat) (exit_code : Int) (failures : Nat)
    (missing_apps : List String) (active_days : Option (Finset Int)) : Summary × Int :=
  (summary_payload action v now_local apps_changed apps_evaluated exit_code failures
    missing_apps active_days, exit_code)

/-- The workspace directory as `main` can observe it: the three
connection-level failure points the code catches (cli.py lines 341-396), or a
successful listing. -/
inductive Directory where
  | importError
  | initError
  | listError
  | ok (apps : List App)
deriving DecidableEq

/-- Everything a run of `main` produces: the summary payload, the returned
exit code, and the trace of transition calls issued to the workspace. -/
structure MainResult where
  summary : Summary
  code : Int
  calls : List String
deriving DecidableEq

/-- Packs an `emit_and_return` result with the call trace. -/
def packResult (p : Summary × Int) (calls : List String) : MainResult :=
  ⟨p.1, p.2, calls⟩

/-- Model of `main` (cli.py lines 291-471) from the point where the workspace
client is obtained: directory-connection failures, missing-name handling, the
empty-target shortcut, and the per-app reconciliation loop.  `startFails` and
`stopFails` give the outcome of each `start_and_wait` / `stop_and_wait` call. -/
def run_main (v : ValidArgs) (now_local : PyDatetime) (dir : Directory)
    (startFails stopFails : String → Bool) : MainResult :=
  let days := mode_days v.mode
  let action := resolved_action v now_local
  match dir with
  | .importError =>
    packResult (emit_and_return action v now_local 0 0 2 1 [] days) []
  | .initError =>
    packResult (emit_and_return action v now_local 0 0 2 1 [] days) []
  | .listError =>
    packResult (emit_and_return action v now_local 0 0 2 1 [] days) []
  | .ok apps =>
    let tm := select_target_apps apps v.app_names
    if tm.2 ≠ [] ∧ v.ignore_missing_apps = false then
      packResult (emit_and_return action v now_local 0 tm.1.length 1 0 tm.2 days) []
    else if tm.1 = [] then
      packResult
        (emit_and_return action v now_local 0 0
          (if v.ignore_missing_apps then 0 else 1) 0 tm.2 days) []
    else
      let callFails := if action = "start" then startFails else stopFails
      let terminal := if action = "start" then RUNNING_STATES else STOPPED_STATES
      let acc := run_loop terminal v.dry_run callFails tm.1
      packResult
        (emit_and_return action v now_local acc.updated tm.1.length
          (if acc.failures ≠ 0 then 1 else 0) acc.failures tm.2 days)
        acc.calls

/-- Raw invocation arguments of `main` (the argparse surface). -/
structure Args where
  app_names : String
  timezone : String
  start_hour : Int
  end_hour : Int
  active_days : String
  action : String
  dry_run : Bool
  ignore_missing_apps : Bool
  output : String
deriving DecidableEq

/-- Model of the `parser.error` prologue of `main` (cli.py lines 296-326):
hour validation, app-name parsing, and active-day parsing; `none` models a
usage-level abort before any workspace interaction.  Timezone and `--now`
resolution are handled by `resolve_now` against the modelled offset. -/
def validate_args (args : Args) : Option ValidArgs :=
  if 0 ≤ args.start_hour ∧ args.start_hour ≤ 23 then
    if 0 ≤ args.end_hour ∧ args.end_hour ≤ 23 then
      let names := parse_app_names args.app_names
      if names = [] then none
      else if args.action = "auto" then
        match parse_active_days args.active_days with
        | .error _ => none
        | .ok days =>
          some ⟨names, args.start_hour, args.end_hour, .auto days, args.dry_run,
            args.ignore_missing_apps, args.output, args.timezone⟩
      else
        some ⟨names, args.start_hour, args.end_hour, .forced args.action, args.dry_run,
          args.ignore_missing_apps, args.output, args.timezone⟩
    else none
  else none

/-- Model of `main`: validate, then reconcile. -/
def main_model (args : Args) (now_local : PyDatetime) (dir : Directory)
    (startFails stopFails : String → Bool) : Option MainResult :=
  (validate_args args).map (fun v => run_main v now_local dir startFails stopFails)

/-- A target app whose transition call will be attempted and will fail:
not already terminal, not a dry run, and the call errors. -/
def would_fail (terminal : List String) (dry : Bool) (callFails : String → Bool)
    (a : App) : Bool :=
  if state_name a ∈ terminal then false
  else if dry then false
  else callFails a.name

theorem accAdd_zero (x : LoopAcc) : accAdd ⟨0, 0, []⟩ x = x := by
  simp [accAdd]

theorem ite_start_eq (P : Prop) [Decidable P] :
    ((if P then "start" else "stop") = ("start" : String)) ↔ P := by
  by_cases h : P
  · simp [h]
  · rw [if_neg h]
    exact iff_of_false (by decide) h

theorem run_loop_failures_eq (terminal : List String) (dry : Bool)
    (callFails : String → Bool) (l : List App) :
    (run_loop terminal dry callFails l).failures =
      (l.filter (would_fail terminal dry callFails)).length := by
  have hpa : ∀ b, (process_app terminal dry callFails b).failures =
      (if would_fail terminal dry callFails b then 1 else 0) := by
    intro b
    unfold process_app would_fail
    split_ifs <;> simp_all
  induction l with
  | nil => rfl
  | cons a l ih =>
    simp only [run_loop, accAdd, List.filter_cons]
    by_cases hw : would_fail terminal dry callFails a <;>
      simp [hw, hpa a, ih] <;> omega

/-- C1: `resolve_action` decides `stop` off active days regardless of hour;
on active days it is always-on when the hours coincide, a same-day window
`start <= hour < end` when `startHour < endHour`, and an overnight window
`hour >= start or hour < end` when `startHour > endHour` — start inclusive,
end exclusive, with the day check taking precedence. -/
theorem resolve_action_correct (now : PyDatetime) (sh eh : Int) (days : Finset Int)
    (htz : now.tzinfo ≠ none) (hsh0 : 0 ≤ sh) (hsh1 : sh ≤ 23)
    (heh0 : 0 ≤ eh) (heh1 : eh ≤ 23) (hdays : days.Nonempty) :
    (pyWeekday now ∉ days → resolve_action now sh eh days = "stop") ∧
    (pyWeekday now ∈ days → sh = eh → resolve_action now sh eh days = "start") ∧
    (pyWeekday now ∈ days → sh < eh →
      (resolve_action now sh eh days = "start" ↔ sh ≤ now.hour ∧ now.hour < eh)) ∧
    (pyWeekday now ∈ days → eh < sh →
      (resolve_action now sh eh days = "start" ↔ now.hour ≥ sh ∨ now.hour < eh)) ∧
    (resolve_action now sh eh days = "start" ∨ resolve_action now sh eh days = "stop") := by
  refine ⟨fun hm => ?_, fun hm he => ?_, fun hm hlt => ?_, fun hm hgt => ?_, ?_⟩
  · rw [resolve_action, if_pos hm]
  · rw [resolve_action, if_neg (not_not_intro hm), if_pos he]
  · rw [resolve_action, if_neg (not_not_intro hm), if_neg (by omega), if_pos hlt]
    exact ite_start_eq _
  · rw [resolve_action, if_neg (not_not_intro hm), if_neg (by omega), if_neg (by omega)]
    exact ite_start_eq _
  · unfold resolve_action
    split_ifs <;> simp

theorem resolve_action_correct_witness :
    resolve_action ⟨2026, 2, 8, 10, 0, 0, some 0⟩ 8 17 ({0} : Finset Int) = "stop" ∧
    resolve_action ⟨2026, 2, 9, 23, 0, 0, some 60⟩ 22 6 allDays = "start" := by
  constructor
  · exact (resolve_action_correct ⟨2026, 2, 8, 10, 0, 0, some 0⟩ 8 17 {0}
      (by decide) (by decide) (by decide) (by decide) (by decide) (by decide)).1
      (by decide)
  · exact ((resolve_action_correct ⟨2026, 2, 9, 23, 0, 0, some 60⟩ 22 6 allDays
      (by decide) (by decide) (by decide) (by decide) (by decide) (by decide)).2.2.2.1
      (by decide) (by decide)).2 (by decide)

/-- C9: on every modelled path of `main`, the `exit_code` field placed in the
summary payload equals the exit code `main` returns. -/
theorem summary_exit_code_agrees (v : ValidArgs) (now : PyDatetime) (dir : Directory)
    (sf stf : String → Bool) :
    (run_main v now dir sf stf).summary.exit_code = (run_main v now dir sf stf).code := by
  cases dir <;>
    simp only [run_main, packResult, emit_and_return, summary_payload] <;>
    split_ifs <;> rfl

/-- C3: in the per-resource loop, a target already in the decision's terminal
state set is skipped (no call, no change, no failure, and the run tally is
unchanged); otherwise the resource is subject to a transition attempt — in
dry-run mode the changed count increments with no call, otherwise the call is
issued and a successful call increments the changed count while a failed one
counts as a failure instead; a state outside both known state sets (the
`unknown` category) is never terminal for either decision. -/
theorem per_app_reconciliation (a : App) (action : String) (terminal : List String)
    (dry : Bool) (callFails : String → Bool)
    (hterm : terminal = if action = "start" then RUNNING_STATES else STOPPED_STATES) :
    (state_name a ∈ terminal → process_app terminal dry callFails a = ⟨0, 0, []⟩) ∧
    (state_name a ∈ terminal → ∀ rest, run_loop terminal dry callFails (a :: rest) =
      run_loop terminal dry callFails rest) ∧
    (state_name a ∉ terminal → dry = true →
      process_app terminal dry callFails a = ⟨1, 0, []⟩) ∧
    (state_name a ∉ terminal → dry = false →
      (process_app terminal dry callFails a).calls = [a.name]) ∧
    (state_name a ∉ terminal → dry = false → callFails a.name = false →
      process_app terminal dry callFails a = ⟨1, 0, [a.name]⟩) ∧
    (state_name a ∉ terminal → dry = false → callFails a.name = true →
      process_app terminal dry callFails a = ⟨0, 1, [a.name]⟩) ∧
    (state_name a ∉ RUNNING_STATES → state_name a ∉ STOPPED_STATES →
      state_name a ∉ terminal) := by
  refine ⟨fun hm => ?_, fun hm rest => ?_, fun hm hd => ?_, fun hm hd => ?_,
    fun hm hd hf => ?_, fun hm hd hf => ?_, fun hr hs => ?_⟩
  · rw [process_app, if_pos hm]
  · rw [run_loop, process_app, if_pos hm, accAdd_zero]
  · rw [process_app, if_neg hm, if_pos hd]
  · rw [process_app, if_neg hm, hd, if_neg (by simp)]
    split_ifs <;> rfl
  · rw [process_app, if_neg hm, hd, if_neg (by simp), hf, if_neg (by simp)]
  · rw [process_app, if_neg hm, hd, if_neg (by simp), hf, if_pos rfl]
  · rw [hterm]
    split_ifs <;> assumption

theorem per_app_reconciliation_witness :
    process_app RUNNING_STATES false (fun _ => false) ⟨"app-a", some "stopped"⟩ =
      ⟨1, 0, ["app-a"]⟩ ∧
    process_app RUNNING_STATES false (fun _ => false) ⟨"app-b", none⟩ =
      ⟨1, 0, ["app-b"]⟩ := by
  constructor
  · exact (per_app_reconciliation ⟨"app-a", some "stopped"⟩ "start" RUNNING_STATES
      false (fun _ => false) (by decide)).2.2.2.2.1 (by decide) rfl rfl
  · exact (per_app_reconciliation ⟨"app-b", none⟩ "start" RUNNING_STATES
      false (fun _ => false) (by decide)).2.2.2.2.1 (by decide) rfl rfl

/-- C2 counterexample: a run that requests `app-a, app-b` against a listing
containing only `app-a`, with `ignore_missing_apps` off, aborts with exit
code 1 and no transition call — but its summary reports `apps_evaluated = 1`
(the number of found targets, cli.py line 405), not `0` as the claim states. -/
theorem missing_apps_counterexample :
    (select_target_apps [⟨"app-a", some "STOPPED"⟩] ["app-a", "app-b"]).2 = ["app-b"] ∧
    (⟨["app-a", "app-b"], 8, 17, .forced "start", false, false, "json", "UTC"⟩ :
      ValidArgs).ignore_missing_apps = false ∧
    (run_main ⟨["app-a", "app-b"], 8, 17, .forced "start", false, false, "json", "UTC"⟩
      ⟨2026, 2, 8, 10, 0, 0, some 0⟩ (.ok [⟨"app-a", some "STOPPED"⟩])
      (fun _ => false) (fun _ => false)).code = 1 ∧
    (run_main ⟨["app-a", "app-b"], 8, 17, .forced "start", false, false, "json", "UTC"⟩
      ⟨2026, 2, 8, 10, 0, 0, some 0⟩ (.ok [⟨"app-a", some "STOPPED"⟩])
      (fun _ => false) (fun _ => false)).calls = [] ∧
    ¬((run_main ⟨["app-a", "app-b"], 8, 17, .forced "start", false, false, "json", "UTC"⟩
      ⟨2026, 2, 8, 10, 0, 0, some 0⟩ (.ok [⟨"app-a", some "STOPPED"⟩])
      (fun _ => false) (fun _ => false)).summary.apps_evaluated = 0) := by
  refine ⟨rfl, rfl, rfl, rfl, ?_⟩
  decide

/-- C2 (amended): when a requested name is absent from the listing and
`ignore_missing_apps` is off, the run aborts before any transition call with
exit code 1, `apps_changed = 0`, the missing names listed, and
`apps_evaluated` equal to the number of requested names that were found. -/
theorem missing_apps_abort (v : ValidArgs) (now : PyDatetime) (apps : List App)
    (sf stf : String → Bool)
    (hign : v.ignore_missing_apps = false)
    (hmiss : (select_target_apps apps v.app_names).2 ≠ []) :
    (run_main v now (.ok apps) sf stf).code = 1 ∧
    (run_main v now (.ok apps) sf stf).calls = [] ∧
    (run_main v now (.ok apps) sf stf).summary.apps_changed = 0 ∧
    (run_main v now (.ok apps) sf stf).summary.apps_evaluated =
      (select_target_apps apps v.app_names).1.length ∧
    (run_main v now (.ok apps) sf stf).summary.missing_apps =
      (select_target_apps apps v.app_names).2 := by
  simp [run_main, if_pos (And.intro hmiss hign), packResult, emit_and_return,
    summary_payload]

theorem missing_apps_abort_witness :
    (run_main ⟨["x", "y"], 8, 17, .forced "stop", false, false, "text", "UTC"⟩
      ⟨2026, 2, 9, 9, 0, 0, some 0⟩ (.ok [⟨"y", some "ACTIVE"⟩])
      (fun _ => false) (fun _ => false)).code = 1 ∧
    (run_main ⟨["x", "y"], 8, 17, .forced "stop", false, false, "text", "UTC"⟩
      ⟨2026, 2, 9, 9, 0, 0, some 0⟩ (.ok [⟨"y", some "ACTIVE"⟩])
      (fun _ => false) (fun _ => false)).calls = [] ∧
    (run_main ⟨["x", "y"], 8, 17, .forced "stop", false, false, "text", "UTC"⟩
      ⟨2026, 2, 9, 9, 0, 0, some 0⟩ (.ok [⟨"y", some "ACTIVE"⟩])
      (fun _ => false) (fun _ => false)).summary.apps_changed = 0 ∧
    (run_main ⟨["x", "y"], 8, 17, .forced "stop", false, false, "text", "UTC"⟩
      ⟨2026, 2, 9, 9, 0, 0, some 0⟩ (.ok [⟨"y", some "ACTIVE"⟩])
      (fun _ => false) (fun _ => false)).summary.apps_evaluated =
      (select_target_apps [⟨"y", some "ACTIVE"⟩] ["x", "y"]).1.length ∧
    (run_main ⟨["x", "y"], 8, 17, .forced "stop", false, false, "text", "UTC"⟩
      ⟨2026, 2, 9, 9, 0, 0, some 0⟩ (.ok [⟨"y", some "ACTIVE"⟩])
      (fun _ => false) (fun _ => false)).summary.missing_apps =
      (select_target_apps [⟨"y", some "ACTIVE"⟩] ["x", "y"]).2 :=
  missing_apps_abort ⟨["x", "y"], 8, 17, .forced "stop", false, false, "text", "UTC"⟩
    ⟨2026, 2, 9, 9, 0, 0, some 0⟩ [⟨"y", some "ACTIVE"⟩]
    (fun _ => false) (fun _ => false) rfl (by decide)

/-- C4: once the per-resource loop is reached, each failed transition call is
caught and tallied — the loop over `a :: rest` always equals the one-app
tally combined with the tally of the rest, so one resource's failure never
blocks later ones — the summary failure count equals the number of failed
transition calls, and the exit code is 1 exactly when at least one failure
occurred, else 0. -/
theorem failure_isolation (v : ValidArgs) (now : PyDatetime) (apps : List App)
    (sf stf : String → Bool)
    (hmiss : (select_target_apps apps v.app_names).2 = [] ∨ v.ignore_missing_apps = true)
    (htgt : (select_target_apps apps v.app_names).1 ≠ []) :
    ((run_main v now (.ok apps) sf stf).summary.failures =
      ((select_target_apps apps v.app_names).1.filter
        (would_fail
          (if resolved_action v now = "start" then RUNNING_STATES else STOPPED_STATES)
          v.dry_run
          (if resolved_action v now = "start" then sf else stf))).length) ∧
    ((run_main v now (.ok apps) sf stf).code =
      (if (run_main v now (.ok apps) sf stf).summary.failures ≠ 0 then 1 else 0)) ∧
    (∀ (terminal : List String) (dry : Bool) (f : String → Bool) (a : App)
      (rest : List App),
      run_loop terminal dry f (a :: rest) =
        accAdd (process_app terminal dry f a) (run_loop terminal dry f rest)) := by
  have hnot : ¬((select_target_apps apps v.app_names).2 ≠ [] ∧
      v.ignore_missing_apps = false) := by
    rcases hmiss with h | h
    · exact fun hc => hc.1 h
    · exact fun hc => by simp [h] at hc
  refine ⟨?_, ?_, fun terminal dry f a rest => rfl⟩ <;>
    simp [run_main, if_neg hnot, if_neg htgt, packResult, emit_and_return,
      summary_payload, run_loop_failures_eq]

theorem failure_isolation_witness :
    (run_main ⟨["a", "b"], 8, 17, .forced "start", false, true, "json", "UTC"⟩
      ⟨2026, 2, 9, 9, 0, 0, some 0⟩
      (.ok [⟨"a", some "STOPPED"⟩, ⟨"b", some "STOPPED"⟩])
      (fun n => n == "a") (fun _ => false)).summary.failures =
      ((select_target_apps [⟨"a", some "STOPPED"⟩, ⟨"b", some "STOPPED"⟩]
          (⟨["a", "b"], 8, 17, .forced "start", false, true, "json", "UTC"⟩ :
            ValidArgs).app_names).1.filter
        (would_fail
          (if resolved_action
              ⟨["a", "b"], 8, 17, .forced "start", false, true, "json", "UTC"⟩
              ⟨2026, 2, 9, 9, 0, 0, some 0⟩ = "start"
            then RUNNING_STATES else STOPPED_STATES)
          false
          (if resolved_action
              ⟨["a", "b"], 8, 17, .forced "start", false, true, "json", "UTC"⟩
              ⟨2026, 2, 9, 9, 0, 0, some 0⟩ = "start"
            then (fun n => n == "a") else (fun _ => false)))).length :=
  (failure_isolation ⟨["a", "b"], 8, 17, .forced "start", false, true, "json", "UTC"⟩
    ⟨2026, 2, 9, 9, 0, 0, some 0⟩ [⟨"a", some "STOPPED"⟩, ⟨"b", some "STOPPED"⟩]
    (fun n => n == "a") (fun _ => false) (Or.inr rfl) (by decide)).1

/-- C5: every directory-connection-level failure (SDK import, client
construction, listing) yields exit code 2 with zero evaluated and zero
changed apps; and whenever the found-target list is empty after missing-name
handling, no transition call is attempted and the exit code is 0 when
`ignore_missing_apps` is set, else 1. -/
theorem exit_code_mapping (v : ValidArgs) (now : PyDatetime) (sf stf : String → Bool) :
    ((run_main v now .importError sf stf).code = 2 ∧
      (run_main v now .importError sf stf).summary.apps_evaluated = 0 ∧
      (run_main v now .importError sf stf).summary.apps_changed = 0 ∧
      (run_main v now .importError sf stf).calls = []) ∧
    ((run_main v now .initError sf stf).code = 2 ∧
      (run_main v now .initError sf stf).summary.apps_evaluated = 0 ∧
      (run_main v now .initError sf stf).summary.apps_changed = 0 ∧
      (run_main v now .initError sf stf).calls = []) ∧
    ((run_main v now .listError sf stf).code = 2 ∧
      (run_main v now .listError sf stf).summary.apps_evaluated = 0 ∧
      (run_main v now .listError sf stf).summary.apps_changed = 0 ∧
      (run_main v now .listError sf stf).calls = []) ∧
    (∀ apps, (select_target_apps apps v.app_names).1 = [] →
      (run_main v now (.ok apps) sf stf).calls = [] ∧
      (run_main v now (.ok apps) sf stf).code =
        (if v.ignore_missing_apps then 0 else 1)) := by
  refine ⟨⟨rfl, rfl, rfl, rfl⟩, ⟨rfl, rfl, rfl, rfl⟩, ⟨rfl, rfl, rfl, rfl⟩,
    fun apps htgt => ?_⟩
  by_cases hc : (select_target_apps apps v.app_names).2 ≠ [] ∧
      v.ignore_missing_apps = false
  · simp [run_main, packResult, emit_and_return, summary_payload, hc.1, hc.2]
  · simp [run_main, if_neg hc, if_pos htgt, packResult, emit_and_return,
      summary_payload]

theorem exit_code_mapping_witness :
    ((run_main ⟨["a"], 8, 17, .forced "start", false, false, "json", "UTC"⟩
        ⟨2026, 2, 9, 9, 0, 0, some 0⟩ .importError
        (fun _ => false) (fun _ => false)).code = 2 ∧
      (run_main ⟨["a"], 8, 17, .forced "start", false, false, "json", "UTC"⟩
        ⟨2026, 2, 9, 9, 0, 0, some 0⟩ .importError
        (fun _ => false) (fun _ => false)).summary.apps_evaluated = 0 ∧
      (run_main ⟨["a"], 8, 17, .forced "start", false, false, "json", "UTC"⟩
        ⟨2026, 2, 9, 9, 0, 0, some 0⟩ .importError
        (fun _ => false) (fun _ => false)).summary.apps_changed = 0 ∧
      (run_main ⟨["a"], 8, 17, .forced "start", false, false, "json", "UTC"⟩
        ⟨2026, 2, 9, 9, 0, 0, some 0⟩ .importError
        (fun _ => false) (fun _ => false)).calls = []) ∧
    ((run_main ⟨["a"], 8, 17, .forced "start", false, false, "json", "UTC"⟩
        ⟨2026, 2, 9, 9, 0, 0, some 0⟩ (.ok [])
        (fun _ => false) (fun _ => false)).calls = [] ∧
      (run_main ⟨["a"], 8, 17, .forced "start", false, false, "json", "UTC"⟩
        ⟨2026, 2, 9, 9, 0, 0, some 0⟩ (.ok [])
        (fun _ => false) (fun _ => false)).code =
        (if (⟨["a"], 8, 17, .forced "start", false, false, "json", "UTC"⟩ :
          ValidArgs).ignore_missing_apps then 0 else 1)) :=
  ⟨(exit_code_mapping ⟨["a"], 8, 17, .forced "start", false, false, "json", "UTC"⟩
      ⟨2026, 2, 9, 9, 0, 0, some 0⟩ (fun _ => false) (fun _ => false)).1,
    (exit_code_mapping ⟨["a"], 8, 17, .forced "start", false, false, "json", "UTC"⟩
      ⟨2026, 2, 9, 9, 0, 0, some 0⟩ (fun _ => false) (fun _ => false)).2.2.2 []
      (by decide)⟩

theorem tokenDay_eq (t : String) :
    tokenDay t = (match pyParseInt t with
      | none => none
      | some d => if 0 ≤ d ∧ d ≤ 6 then some d else none) := rfl

theorem tokenDay_some_spec (t : String) (h : tokenDay t ≠ none) :
    ∃ d, pyParseInt t = some d ∧ 0 ≤ d ∧ d ≤ 6 ∧ tokenDay t = some d := by
  cases hp : pyParseInt t with
  | none => exact absurd (by rw [tokenDay_eq, hp]) h
  | some d =>
    by_cases hr : 0 ≤ d ∧ d ≤ 6
    · exact ⟨d, rfl, hr.1, hr.2, by rw [tokenDay_eq, hp]; exact if_pos hr⟩
    · exact absurd (by rw [tokenDay_eq, hp]; exact if_neg hr) h

theorem tokenDay_none_spec (t : String) (h : tokenDay t = none) :
    pyParseInt t = none ∨ ∃ d, pyParseInt t = some d ∧ (d < 0 ∨ 6 < d) := by
  cases hp : pyParseInt t with
  | none => exact Or.inl rfl
  | some d =>
    by_cases hr : 0 ≤ d ∧ d ≤ 6
    · exfalso
      have hd : tokenDay t = some d := by rw [tokenDay_eq, hp]; exact if_pos hr
      rw [hd] at h
      exact Option.noConfusion h
    · exact Or.inr ⟨d, rfl, by omega⟩

theorem daysLoop_err (toks : List String) :
    ∀ acc, (∃ t ∈ toks, tokenDay t = none) →
      ∃ t ∈ toks, tokenDay t = none ∧ daysLoop toks acc = .error (.invalidWeekday t) := by
  induction toks with
  | nil => intro acc h; simp at h
  | cons t rest ih =>
    intro acc h
    by_cases ht : tokenDay t = none
    · refine ⟨t, List.mem_cons_self t rest, ht, ?_⟩
      rcases tokenDay_none_spec t ht with hp | ⟨d, hp, hr⟩
      · simp only [daysLoop, hp]
      · simp only [daysLoop, hp, if_pos hr]
    · obtain ⟨d, hp, hd0, hd6, _⟩ := tokenDay_some_spec t ht
      have hrest : ∃ u ∈ rest, tokenDay u = none := by
        obtain ⟨u, hu, hnone⟩ := h
        cases List.mem_cons.1 hu with
        | inl he => exact absurd (he ▸ hnone) ht
        | inr hm => exact ⟨u, hm, hnone⟩
      obtain ⟨u, hu, hun, hloop⟩ := ih (insert d acc) hrest
      refine ⟨u, List.mem_cons_of_mem _ hu, hun, ?_⟩
      simp only [daysLoop, hp, if_neg (show ¬(d < 0 ∨ 6 < d) by omega)]
      exact hloop

theorem daysLoop_ok (toks : List String) :
    ∀ acc, (∀ t ∈ toks, tokenDay t ≠ none) →
      daysLoop toks acc = .ok (acc ∪ (toks.filterMap tokenDay).toFinset) := by
  induction toks with
  | nil => intro acc _; simp [daysLoop]
  | cons t rest ih =>
    intro acc h
    obtain ⟨d, hp, hd0, hd6, htd⟩ :=
      tokenDay_some_spec t (h t (List.mem_cons_self t rest))
    simp only [daysLoop, hp, if_neg (show ¬(d < 0 ∨ 6 < d) by omega)]
    rw [ih (insert d acc) (fun u hu => h u (List.mem_cons_of_mem _ hu))]
    rw [List.filterMap_cons, htd, List.toFinset_cons, Finset.insert_union,
      Finset.union_insert]

/-- C6: `parse_active_days` returns all seven weekdays when the stripped,
lowercased input is empty or `all`; otherwise it returns the set of weekday
integers parsed from the comma-split, stripped tokens, failing with the
invalid-weekday error naming an offending token whenever some token is not an
integer in `[0, 6]`, and failing with the empty-set error when no tokens
remain. -/
theorem parse_active_days_correct (raw : String) :
    ((pyLower (pyStrip raw) = "" ∨ pyLower (pyStrip raw) = "all") →
      parse_active_days raw = .ok allDays) ∧
    (¬(pyLower (pyStrip raw) = "" ∨ pyLower (pyStrip raw) = "all") →
      ((∃ t ∈ csv_tokens raw, tokenDay t = none) →
        ∃ t ∈ csv_tokens raw, tokenDay t = none ∧
          parse_active_days raw = .error (.invalidWeekday t)) ∧
      ((∀ t ∈ csv_tokens raw, tokenDay t ≠ none) →
        (csv_tokens raw = [] → parse_active_days raw = .error .emptyDays) ∧
        (csv_tokens raw ≠ [] →
          parse_active_days raw =
            .ok ((csv_tokens raw).filterMap tokenDay).toFinset))) := by
  refine ⟨fun hall => ?_, fun hall => ⟨fun hbad => ?_, fun hgood => ⟨fun hnil => ?_,
    fun hnn => ?_⟩⟩⟩
  · rw [parse_active_days, if_pos hall]
  · obtain ⟨t, ht, htn, hloop⟩ := daysLoop_err (csv_tokens raw) ∅ hbad
    exact ⟨t, ht, htn, by rw [parse_active_days, if_neg hall, hloop]⟩
  · rw [parse_active_days, if_neg hall, daysLoop_ok (csv_tokens raw) ∅ hgood]
    rw [hnil]
    simp
  · have hne : ((csv_tokens raw).filterMap tokenDay).toFinset ≠ ∅ := by
      cases hcs : csv_tokens raw with
      | nil => exact absurd hcs hnn
      | cons t rest =>
        obtain ⟨d, hp, hd0, hd6, htd⟩ := tokenDay_some_spec t
          (by rw [hcs] at hgood; exact hgood t (List.mem_cons_self t rest))
        rw [List.filterMap_cons, htd, List.toFinset_cons]
        exact Finset.insert_ne_empty d _
    rw [parse_active_days, if_neg hall, daysLoop_ok (csv_tokens raw) ∅ hgood,
      Finset.empty_union]
    simp [hne]

theorem parse_active_days_correct_witness :
    parse_active_days "0,2,4" =
      .ok ((csv_tokens "0,2,4").filterMap tokenDay).toFinset ∧
    parse_active_days " ALL " = .ok allDays ∧
    (∃ t ∈ csv_tokens "7", tokenDay t = none ∧
      parse_active_days "7" = .error (.invalidWeekday t)) :=
  ⟨(((parse_active_days_correct "0,2,4").2 (by decide)).2 (by decide)).2 (by decide),
    (parse_active_days_correct " ALL ").1 (by decide),
    ((parse_active_days_correct "7").2 (by decide)).1 ⟨"7", by decide, by decide⟩⟩

theorem string_eq_iff_data (s t : String) : s = t ↔ s.data = t.data :=
  ⟨fun h => congrArg String.data h, fun h => by cases s; cases t; exact congrArg String.mk h⟩

theorem strip_eq_nil_of_all_space (l : List Char)
    (h : ∀ c ∈ l, isPySpace c = true) : stripChars l = [] := by
  unfold stripChars
  rw [List.dropWhile_eq_nil_iff.2 h]
  simp

theorem all_space_of_strip_eq_nil (l : List Char) (h : stripChars l = []) :
    ∀ c ∈ l, isPySpace c = true := by
  intro c hc
  unfold stripChars at h
  rw [List.reverse_eq_nil_iff, List.dropWhile_eq_nil_iff] at h
  have hm : ∀ x ∈ l.dropWhile isPySpace, isPySpace x = true := by
    intro x hx
    exact h x (List.mem_reverse.2 hx)
  rw [← List.takeWhile_append_dropWhile isPySpace l] at hc
  rcases List.mem_append.1 hc with hc | hc
  · exact List.mem_takeWhile_imp hc
  · exact hm c hc

theorem mem_strip_or_space (l : List Char) (c : Char) (hc : c ∈ l) :
    isPySpace c = true ∨ c ∈ stripChars l := by
  rw [← List.takeWhile_append_dropWhile isPySpace l] at hc
  rcases List.mem_append.1 hc with hc | hc
  · exact Or.inl (List.mem_takeWhile_imp hc)
  · rw [← List.reverse_reverse (l.dropWhile isPySpace)] at hc
    rw [List.mem_reverse] at hc
    rw [← List.takeWhile_append_dropWhile isPySpace
      (l.dropWhile isPySpace).reverse] at hc
    rcases List.mem_append.1 hc with hc | hc
    · exact Or.inl (List.mem_takeWhile_imp hc)
    · exact Or.inr (List.mem_reverse.2 hc)

theorem mem_of_mem_strip (l : List Char) (c : Char) (hc : c ∈ stripChars l) :
    c ∈ l := by
  unfold stripChars at hc
  rw [List.mem_reverse] at hc
  have h1 := (List.dropWhile_sublist (l := (l.dropWhile isPySpace).reverse)
    (p := isPySpace)).subset hc
  rw [List.mem_reverse] at h1
  exact (List.dropWhile_sublist (l := l) (p := isPySpace)).subset h1

theorem head_dropWhile_not_space (l : List Char) (c : Char)
    (h : (l.dropWhile isPySpace).head? = some c) : isPySpace c = false := by
  induction l with
  | nil => simp at h
  | cons a l ih =>
    by_cases ha : isPySpace a
    · rw [List.dropWhile_cons_of_pos ha] at h
      exact ih h
    · rw [List.dropWhile_cons_of_neg ha] at h
      simp only [List.head?_cons, Option.some.injEq] at h
      rw [← h]
      exact Bool.not_eq_true _ ▸ (by simpa using ha)

theorem dropWhile_eq_self_of_head (l : List Char) (p : Char → Bool)
    (h : ∀ c, l.head? = some c → p c = false) : l.dropWhile p = l := by
  cases l with
  | nil => rfl
  | cons a l =>
    have ha := h a rfl
    exact List.dropWhile_cons_of_neg (by simp [ha])

theorem getLast_dropWhile_of_ne_nil (l : List Char) (p : Char → Bool)
    (h : l.dropWhile p ≠ []) : (l.dropWhile p).getLast? = l.getLast? := by
  conv_rhs => rw [← List.takeWhile_append_dropWhile p l]
  exact (List.getLast?_append_of_ne_nil _ h).symm

theorem getLast?_reverse_eq (l : List Char) : l.reverse.getLast? = l.head? := by
  rw [← List.head?_reverse, List.reverse_reverse]

theorem strip_head_not_space (l : List Char) (c : Char)
    (h : (stripChars l).head? = some c) : isPySpace c = false := by
  unfold stripChars at h
  rw [List.head?_reverse] at h
  have hne : (l.dropWhile isPySpace).reverse.dropWhile isPySpace ≠ [] := by
    intro hc
    rw [hc] at h
    simp at h
  rw [getLast_dropWhile_of_ne_nil _ _ hne, getLast?_reverse_eq] at h
  exact head_dropWhile_not_space l c h

theorem strip_getLast_not_space (l : List Char) (c : Char)
    (h : (stripChars l).getLast? = some c) : isPySpace c = false := by
  unfold stripChars at h
  rw [getLast?_reverse_eq] at h
  exact head_dropWhile_not_space ((l.dropWhile isPySpace).reverse) c h

theorem strip_eq_self_of_ends (l : List Char)
    (h1 : ∀ c, l.head? = some c → isPySpace c = false)
    (h2 : ∀ c, l.getLast? = some c → isPySpace c = false) : stripChars l = l := by
  unfold stripChars
  rw [dropWhile_eq_self_of_head l isPySpace h1]
  rw [dropWhile_eq_self_of_head l.reverse isPySpace
    (fun c hc => h2 c (by rwa [List.head?_reverse] at hc))]
  exact List.reverse_reverse l

theorem strip_idem (l : List Char) : stripChars (stripChars l) = stripChars l :=
  strip_eq_self_of_ends _ (strip_head_not_space l) (strip_getLast_not_space l)

theorem splitCommaAux_no_comma (l : List Char) :
    ∀ acc, ',' ∉ l → splitCommaAux l acc = [acc.reverse ++ l] := by
  induction l with
  | nil => intro acc _; simp [splitCommaAux]
  | cons c rest ih =>
    intro acc h
    have hc : c ≠ ',' := fun he => h (he ▸ List.mem_cons_self c rest)
    rw [splitCommaAux, if_neg (fun he => hc he)]
    rw [ih (c :: acc) (fun hm => h (List.mem_cons_of_mem c hm))]
    simp

theorem splitCommaAux_append (p : List Char) :
    ∀ acc rest, ',' ∉ p →
      splitCommaAux (p ++ ',' :: rest) acc = (acc.reverse ++ p) :: splitCommaAux rest [] := by
  induction p with
  | nil => intro acc rest _; simp [splitCommaAux]
  | cons c p ih =>
    intro acc rest h
    have hc : c ≠ ',' := fun he => h (he ▸ List.mem_cons_self c p)
    rw [List.cons_append, splitCommaAux, if_neg (fun he => hc he)]
    rw [ih (c :: acc) rest (fun hm => h (List.mem_cons_of_mem c hm))]
    simp

theorem mem_splitCommaAux (l : List Char) :
    ∀ acc q, ',' ∉ acc → q ∈ splitCommaAux l acc → ',' ∉ q := by
  induction l with
  | nil =>
    intro acc q hacc hq
    simp only [splitCommaAux, List.mem_singleton] at hq
    rw [hq]
    simpa using hacc
  | cons c rest ih =>
    intro acc q hacc hq
    by_cases hc : c = ','
    · rw [splitCommaAux, if_pos hc] at hq
      rcases List.mem_cons.1 hq with hq | hq
      · rw [hq]
        simpa using hacc
      · exact ih [] q (by simp) hq
    · rw [splitCommaAux, if_neg hc] at hq
      refine ih (c :: acc) q ?_ hq
      intro hm
      rcases List.mem_cons.1 hm with hm | hm
      · exact hc hm.symm
      · exact hacc hm

theorem splitComma_no_comma (l : List Char) (h : ',' ∉ l) : splitComma l = [l] := by
  rw [splitComma, splitCommaAux_no_comma l [] h]
  rfl

theorem joinPieces_cons2 (p q : List Char) (ps : List (List Char)) :
    joinPieces (p :: q :: ps) = p ++ ',' :: joinPieces (q :: ps) := rfl

theorem splitComma_joinPieces (ps : List (List Char)) (hne : ps ≠ [])
    (hc : ∀ p ∈ ps, ',' ∉ p) : splitComma (joinPieces ps) = ps := by
  induction ps with
  | nil => exact absurd rfl hne
  | cons p ps ih =>
    cases ps with
    | nil =>
      rw [show joinPieces [p] = p from rfl]
      exact splitComma_no_comma p (hc p (List.mem_cons_self p []))
    | cons q ps2 =>
      rw [joinPieces_cons2, splitComma,
        splitCommaAux_append p [] (joinPieces (q :: ps2))
          (hc p (List.mem_cons_self p _))]
      rw [List.reverse_nil, List.nil_append]
      rw [show splitCommaAux (joinPieces (q :: ps2)) [] = splitComma (joinPieces (q :: ps2))
        from rfl]
      rw [ih (List.cons_ne_nil q ps2) (fun r hr => hc r (List.mem_cons_of_mem p hr))]

theorem mem_splitComma_no_comma (l q : List Char) (hq : q ∈ splitComma l) :
    ',' ∉ q :=
  mem_splitCommaAux l [] q (by simp) hq

theorem csv_tokens_spec (raw : String) :
    ∀ t ∈ csv_tokens raw, t.data ≠ [] ∧ (',' ∉ t.data) ∧ stripChars t.data = t.data := by
  intro t ht
  simp only [csv_tokens, List.mem_map, List.mem_filter] at ht
  obtain ⟨cs, ⟨hmem, hcs⟩, hmk⟩ := ht
  obtain ⟨p, hp, hstrip⟩ := hmem
  have hdata : t.data = cs := by rw [← hmk]
  have hcs' : cs ≠ [] := by
    intro he
    rw [he] at hcs
    simp at hcs
  refine ⟨by rw [hdata]; exact hcs', ?_, ?_⟩
  · rw [hdata, ← hstrip]
    intro hm
    exact mem_splitComma_no_comma raw.data p hp (mem_of_mem_strip p ',' hm)
  · rw [hdata, ← hstrip]
    exact strip_idem p

theorem csv_tokens_no_comma (raw : String) (h : ',' ∉ raw.data) :
    csv_tokens raw =
      (if stripChars raw.data = [] then [] else [String.mk (stripChars raw.data)]) := by
  unfold csv_tokens
  rw [splitComma_no_comma raw.data h]
  by_cases hs : stripChars raw.data = []
  · simp [hs]
  · simp [hs]

/-- C10: `parse_active_days` strips the raw string before comparing with the
empty and `all` forms, so any whitespace-only input yields the full weekday
set, whereas an input with non-whitespace characters but no surviving tokens
(such as `,` or ` , `) raises the empty-set error. -/
theorem parse_active_days_whitespace (raw : String) :
    ((∀ c ∈ raw.data, isPySpace c = true) → parse_active_days raw = .ok allDays) ∧
    ((∃ c ∈ raw.data, isPySpace c = false) → csv_tokens raw = [] →
      parse_active_days raw = .error .emptyDays) ∧
    parse_active_days "," = .error .emptyDays ∧
    parse_active_days " , " = .error .emptyDays := by
  refine ⟨fun hall => ?_, fun hex htok => ?_, by decide, by decide⟩
  · have h0 : stripChars raw.data = [] := strip_eq_nil_of_all_space raw.data hall
    have h1 : pyLower (pyStrip raw) = "" := by
      rw [string_eq_iff_data]
      show (stripChars raw.data).map Char.toLower = ("" : String).data
      rw [h0]
      rfl
    rw [parse_active_days, if_pos (Or.inl h1)]
  · have hne : pyLower (pyStrip raw) ≠ "" := by
      intro he
      rw [string_eq_iff_data] at he
      have h2 : (stripChars raw.data).map Char.toLower = [] := he
      have h3 : stripChars raw.data = [] := List.map_eq_nil_iff.1 h2
      obtain ⟨c, hc, hcs⟩ := hex
      have h4 := all_space_of_strip_eq_nil raw.data h3 c hc
      rw [h4] at hcs
      exact Bool.noConfusion hcs
    have hnall : pyLower (pyStrip raw) ≠ "all" := by
      intro he
      rw [string_eq_iff_data] at he
      have h2 : (stripChars raw.data).map Char.toLower = ['a', 'l', 'l'] := he
      have hsne : stripChars raw.data ≠ [] := by
        intro h3
        rw [h3] at h2
        exact List.noConfusion h2
      have hnc : ',' ∉ raw.data := by
        intro hc
        rcases mem_strip_or_space raw.data ',' hc with hs | hs
        · exact absurd hs (by decide)
        · have hmem : Char.toLower ',' ∈ (stripChars raw.data).map Char.toLower :=
            List.mem_map_of_mem Char.toLower hs
          rw [h2] at hmem
          exact absurd hmem (by decide)
      have h5 := csv_tokens_no_comma raw hnc
      rw [if_neg hsne, htok] at h5
      exact List.noConfusion h5
    have hcond : ¬(pyLower (pyStrip raw) = "" ∨ pyLower (pyStrip raw) = "all") := by
      rintro (h | h)
      · exact hne h
      · exact hnall h
    rw [parse_active_days, if_neg hcond, htok]
    simp [daysLoop]

theorem parse_active_days_whitespace_witness :
    parse_active_days " " = .ok allDays ∧
    parse_active_days ",," = .error .emptyDays :=
  ⟨(parse_active_days_whitespace " ").1 (by decide),
    (parse_active_days_whitespace ",,").2.1 (by decide) (by decide)⟩

theorem dedup_first_nodup (l : List String) :
    ∀ seen, (dedup_first seen l).Nodup ∧ ∀ x ∈ dedup_first seen l, x ∉ seen := by
  induction l with
  | nil => intro seen; exact ⟨List.nodup_nil, by simp [dedup_first]⟩
  | cons n rest ih =>
    intro seen
    by_cases hn : n ∈ seen
    · simp only [dedup_first, if_pos hn]
      exact ih seen
    · simp only [dedup_first, if_neg hn]
      constructor
      · refine List.nodup_cons.2 ⟨?_, (ih (n :: seen)).1⟩
        intro hmem
        exact ((ih (n :: seen)).2 n hmem) (List.mem_cons_self n seen)
      · intro x hx
        rcases List.mem_cons.1 hx with hx | hx
        · rw [hx]; exact hn
        · intro hxs
          exact (ih (n :: seen)).2 x hx (List.mem_cons_of_mem n hxs)

theorem mem_dedup_first (l : List String) :
    ∀ seen x, x ∈ dedup_first seen l ↔ x ∈ l ∧ x ∉ seen := by
  induction l with
  | nil => intro seen x; simp [dedup_first]
  | cons n rest ih =>
    intro seen x
    by_cases hn : n ∈ seen
    · simp only [dedup_first, if_pos hn]
      rw [ih seen x]
      constructor
      · rintro ⟨hx, hs⟩
        exact ⟨List.mem_cons_of_mem n hx, hs⟩
      · rintro ⟨hx, hs⟩
        rcases List.mem_cons.1 hx with hx | hx
        · subst hx
          exact absurd hn hs
        · exact ⟨hx, hs⟩
    · simp only [dedup_first, if_neg hn, List.mem_cons]
      rw [ih (n :: seen) x]
      constructor
      · rintro (hx | ⟨hx, hs⟩)
        · exact ⟨Or.inl hx, fun hxs => hn (hx ▸ hxs)⟩
        · exact ⟨Or.inr hx, fun hxs => hs (List.mem_cons_of_mem n hxs)⟩
      · rintro ⟨hx | hx, hs⟩
        · exact Or.inl hx
        · by_cases hxn : x = n
          · exact Or.inl hxn
          · refine Or.inr ⟨hx, fun hxs => ?_⟩
            rcases List.mem_cons.1 hxs with h1 | h1
            · exact hxn h1
            · exact hs h1

theorem dedup_first_sublist (l : List String) :
    ∀ seen, List.Sublist (dedup_first seen l) l := by
  induction l with
  | nil => intro seen; simp [dedup_first]
  | cons n rest ih =>
    intro seen
    by_cases hn : n ∈ seen
    · simp only [dedup_first, if_pos hn]
      exact (ih seen).cons n
    · simp only [dedup_first, if_neg hn]
      exact (ih (n :: seen)).cons₂ n

theorem dedup_first_of_nodup (l : List String) :
    ∀ seen, l.Nodup → (∀ x ∈ l, x ∉ seen) → dedup_first seen l = l := by
  induction l with
  | nil => intro seen _ _; rfl
  | cons n rest ih =>
    intro seen hnd hs
    have hn : n ∉ seen := hs n (List.mem_cons_self n rest)
    simp only [dedup_first, if_neg hn]
    congr 1
    refine ih (n :: seen) (List.nodup_cons.1 hnd).2 ?_
    intro x hx hxs
    rcases List.mem_cons.1 hxs with h1 | h1
    · exact (List.nodup_cons.1 hnd).1 (h1 ▸ hx)
    · exact hs x (List.mem_cons_of_mem n hx) h1

theorem csv_tokens_joinComma (ns : List String)
    (h : ∀ n ∈ ns, n.data ≠ [] ∧ (',' ∉ n.data) ∧ stripChars n.data = n.data) :
    csv_tokens (joinComma ns) = ns := by
  cases hns : ns with
  | nil => rfl
  | cons m ms =>
    have hne : ns.map String.data ≠ [] := by simp [hns]
    have hcomma : ∀ p ∈ ns.map String.data, ',' ∉ p := by
      intro p hp
      obtain ⟨n, hn, hpd⟩ := List.mem_map.1 hp
      rw [← hpd]
      exact (h n hn).2.1
    rw [← hns]
    show (((splitComma (joinPieces (ns.map String.data))).map stripChars).filter
      (fun cs => !cs.isEmpty)).map String.mk = ns
    rw [splitComma_joinPieces (ns.map String.data) hne hcomma]
    have h1 : List.map (stripChars ∘ String.data) ns = List.map String.data ns := by
      apply List.map_congr_left
      intro n hn
      exact (h n hn).2.2
    have hfil : (ns.map String.data).filter (fun cs => !cs.isEmpty) =
        ns.map String.data := by
      apply List.filter_eq_self.2
      intro cs hcs
      obtain ⟨n, hn, hpd⟩ := List.mem_map.1 hcs
      rw [← hpd]
      cases hd : n.data with
      | nil => exact absurd hd (h n hn).1
      | cons a t => rfl
    have h2 : List.map (String.mk ∘ String.data) ns = List.map id ns := by
      apply List.map_congr_left
      intro n _
      cases n
      rfl
    rw [List.map_map, h1, hfil, List.map_map, h2, List.map_id]

/-- C7: `parse_app_names` splits on commas, trims, drops empty tokens, and
deduplicates preserving first-seen order (it is a duplicate-free sublist of
the token list containing every token); it never fails, the empty input
yields the empty list, and it is idempotent on the comma-join of its own
output. -/
theorem parse_app_names_correct (raw : String) :
    parse_app_names "" = [] ∧
    parse_app_names "a,b,a, ,c" = ["a", "b", "c"] ∧
    (parse_app_names raw).Nodup ∧
    List.Sublist (parse_app_names raw) (csv_tokens raw) ∧
    (∀ n, n ∈ parse_app_names raw ↔ n ∈ csv_tokens raw) ∧
    parse_app_names (joinComma (parse_app_names raw)) = parse_app_names raw := by
  refine ⟨by decide, by decide, (dedup_first_nodup (csv_tokens raw) []).1,
    dedup_first_sublist (csv_tokens raw) [], fun n => ?_, ?_⟩
  · simpa using mem_dedup_first (csv_tokens raw) [] n
  · have hprops : ∀ n ∈ parse_app_names raw,
        n.data ≠ [] ∧ (',' ∉ n.data) ∧ stripChars n.data = n.data := by
      intro n hn
      exact csv_tokens_spec raw n ((mem_dedup_first (csv_tokens raw) [] n).1 hn).1
    rw [parse_app_names, csv_tokens_joinComma (parse_app_names raw) hprops]
    exact dedup_first_of_nodup _ [] (dedup_first_nodup (csv_tokens raw) []).1 (by simp)

theorem head?_append_left (l1 l2 : List Char) (h : l1 ≠ []) :
    (l1 ++ l2).head? = l1.head? := by
  cases l1 with
  | nil => exact absurd rfl h
  | cons a t => rfl

theorem head?_of_dropLast_cons (l : List Char) (a : Char) (t : List Char)
    (h : l.dropLast = a :: t) : l.head? = some a := by
  cases l with
  | nil => simp at h
  | cons x xs =>
    cases xs with
    | nil => simp at h
    | cons y ys =>
      rw [show (x :: y :: ys).dropLast = x :: (y :: ys).dropLast from rfl] at h
      injection h with h1 _
      rw [List.head?_cons, h1]

theorem strip_plus_stable (s : String) :
    stripChars ((pyStrip s).data.dropLast ++ ['+', '0', '0', ':', '0', '0'])
      = (pyStrip s).data.dropLast ++ ['+', '0', '0', ':', '0', '0'] := by
  apply strip_eq_self_of_ends
  · intro c hc
    cases hd : (pyStrip s).data.dropLast with
    | nil =>
      rw [hd, List.nil_append, List.head?_cons] at hc
      injection hc with hc1
      rw [← hc1]
      decide
    | cons a t =>
      rw [hd, head?_append_left (a :: t) _ (List.cons_ne_nil a t),
        List.head?_cons] at hc
      injection hc with hc1
      rw [← hc1]
      exact strip_head_not_space s.data a (head?_of_dropLast_cons _ a t hd)
  · intro c hc
    rw [List.getLast?_append_of_ne_nil _ (by decide :
      (['+', '0', '0', ':', '0', '0'] : List Char) ≠ [])] at hc
    have hc1 : c = '0' := by
      have h0 : (['+', '0', '0', ':', '0', '0'] : List Char).getLast? = some '0' := by
        decide
      rw [h0] at hc
      injection hc with hc1
      exact hc1.symm
    rw [hc1]
    decide

theorem z_normalize_rewritten (s : String) :
    z_normalize (pyStrip (String.mk (pyStrip s).data.dropLast ++ "+00:00"))
      = String.mk ((pyStrip s).data.dropLast ++ ['+', '0', '0', ':', '0', '0']) := by
  have hdata : (String.mk (pyStrip s).data.dropLast ++ "+00:00").data
      = (pyStrip s).data.dropLast ++ ['+', '0', '0', ':', '0', '0'] := by
    rw [String.data_append]
  have hps : pyStrip (String.mk (pyStrip s).data.dropLast ++ "+00:00")
      = String.mk ((pyStrip s).data.dropLast ++ ['+', '0', '0', ':', '0', '0']) := by
    rw [string_eq_iff_data]
    show stripChars ((String.mk (pyStrip s).data.dropLast ++ "+00:00").data) = _
    rw [hdata, strip_plus_stable]
  rw [hps, z_normalize]
  rw [if_neg ?hne]
  case hne =>
    show ¬((String.mk ((pyStrip s).data.dropLast ++
      ['+', '0', '0', ':', '0', '0'])).data.getLast? = some 'Z')
    rw [show (String.mk ((pyStrip s).data.dropLast ++
      ['+', '0', '0', ':', '0', '0'])).data =
      (pyStrip s).data.dropLast ++ ['+', '0', '0', ':', '0', '0'] from rfl]
    rw [List.getLast?_append_of_ne_nil _ (by decide :
      (['+', '0', '0', ':', '0', '0'] : List Char) ≠ [])]
    decide

theorem z_normalize_original (s : String)
    (h : (pyStrip s).data.getLast? = some 'Z') :
    z_normalize (pyStrip s)
      = String.mk ((pyStrip s).data.dropLast ++ ['+', '0', '0', ':', '0', '0']) := by
  rw [z_normalize, if_pos h, string_eq_iff_data, String.data_append]

/-- C8: `resolve_now` rewrites a trailing `Z` on the stripped override to
`+00:00` before parsing (rewriting then resolving gives the same instant);
a parse failure produces the error naming the literal raw value; a parsed
instant without an offset keeps its clock fields and is tagged with the
target timezone; a parsed instant with an explicit offset is converted into
the target timezone, so `2026-02-08T10:00:00+00:00` resolved into a `+60`
minute zone (Europe/Stockholm in February) has local hour 11. -/
theorem resolve_now_correct (s : String) (tz : Int) :
    ((pyStrip s).data.getLast? = some 'Z' →
      z_normalize (pyStrip s) = String.mk (pyStrip s).data.dropLast ++ "+00:00") ∧
    ((pyStrip s).data.getLast? = some 'Z' →
      (resolve_now s tz).toOption =
        (resolve_now (String.mk (pyStrip s).data.dropLast ++ "+00:00") tz).toOption) ∧
    (fromIso (z_normalize (pyStrip s)) = none →
      resolve_now s tz = .error (.invalidNow s)) ∧
    (∀ c, fromIso (z_normalize (pyStrip s)) = some c → c.tzinfo = none →
      resolve_now s tz = .ok { c with tzinfo := some tz }) ∧
    (∀ c off, fromIso (z_normalize (pyStrip s)) = some c → c.tzinfo = some off →
      resolve_now s tz = .ok (astimezoneFixed c off tz)) ∧
    resolve_now "2026-02-08T10:00:00+00:00" 60 = .ok ⟨2026, 2, 8, 11, 0, 0, some 60⟩ ∧
    resolve_now "2026-02-08T10:00:00Z" 60 = .ok ⟨2026, 2, 8, 11, 0, 0, some 60⟩ := by
  refine ⟨fun h => ?_, fun h => ?_, fun h => ?_, fun c h hc => ?_,
    fun c off h hc => ?_, by decide, by decide⟩
  · rw [z_normalize, if_pos h]
  · simp only [resolve_now, z_normalize_original s h, z_normalize_rewritten s]
    cases hf : fromIso (String.mk ((pyStrip s).data.dropLast ++
        ['+', '0', '0', ':', '0', '0'])) with
    | none => rfl
    | some c => rfl
  · simp only [resolve_now, h]
  · simp only [resolve_now, h, hc]
  · simp only [resolve_now, h, hc]

theorem resolve_now_correct_witness :
    resolve_now "nonsense" 0 = .error (.invalidNow "nonsense") ∧
    resolve_now "2026-02-08T15:30:00" 60 = .ok ⟨2026, 2, 8, 15, 30, 0, some 60⟩ ∧
    (resolve_now " 2026-02-08T10:00:00Z " 60).toOption =
      (resolve_now (String.mk (pyStrip " 2026-02-08T10:00:00Z ").data.dropLast
        ++ "+00:00") 60).toOption := by
  refine ⟨(resolve_now_correct "nonsense" 0).2.2.1 (by decide), ?_, ?_⟩
  · have h := (resolve_now_correct "2026-02-08T15:30:00" 60).2.2.2.1
      ⟨2026, 2, 8, 15, 30, 0, none⟩ (by decide) rfl
    exact h
  · exact (resolve_now_correct " 2026-02-08T10:00:00Z " 60).2.1 (by decide)
